import Mathlib

/-
Verification of the phone-agent reservation and analytics core.

Shallow embedding of the Python sources:
  app/agent/tools/reservation_tools.py  (availability, allocation, creation,
    cancellation, alternative-slot suggestion, fuzzy name matching)
  app/services/quality_analyzer.py      (calculate_overall_score)
  app/main.py                           (calculate_t_statistic and the
    significance flagging of the A/B dashboard)

Conventions of the embedding:
  - Times of day are minutes from midnight (0 .. 1439); the source stores
    HH:MM strings and parses them, and the translation is a bijection on
    valid times, so string equality corresponds to equality of minute values.
  - Dates stay opaque strings compared only for equality, as in the source.
  - SQLAlchemy rows become structures; a query without order_by enumerates
    rows of these SQLite tables in primary-key order, so the model carries
    the table list and, where a proof needs it, a hypothesis that ids are
    strictly increasing along the list.
  - Python floats become rationals; square roots are avoided by comparing
    squares of nonnegative quantities, which is equivalent.
-/

namespace PhoneAgent

/-- A row of the tables relation: unit id, human-facing number, capacity,
active flag.  Mirrors class Table in app/services/database.py. -/
structure Table where
  id : Nat
  table_number : Nat
  capacity : Nat
  is_active : Bool
  deriving Repr, DecidableEq

/-- A row of the reservations relation.  Mirrors class Reservation in
app/services/database.py; created_at ordering coincides with id ordering
because ids autoincrement. -/
structure Reservation where
  id : Nat
  name : String
  party_size : Nat
  date : String
  time : Nat
  status : String
  assigned_table_id : Option Nat
  deriving Repr, DecidableEq

/-- The persistent state the reservation tools read and write: the table
inventory, the reservation rows in insertion (primary-key) order, and the
autoincrement counter for the next reservation id. -/
structure DB where
  tables : List Table
  resvs : List Reservation
  next_id : Nat
  deriving Repr, DecidableEq

/-- STEP 1 of check_availability: all active tables whose capacity is at
least the party size (reservation_tools.py lines 93-96). -/
def suitableTables (db : DB) (party : Nat) : List Table :=
  db.tables.filter (fun t => decide (party ≤ t.capacity) && t.is_active)

/-- STEP 2 of check_availability: ids of tables already assigned to a
confirmed reservation at this exact date and time (lines 106-114). -/
def bookedTableIds (db : DB) (date : String) (time : Nat) : List Nat :=
  db.resvs.filterMap (fun r =>
    if r.date = date ∧ r.time = time ∧ r.status = "confirmed" ∧ r.assigned_table_id.isSome
    then r.assigned_table_id else none)

/-- STEP 3 of check_availability: suitable tables not already booked
(lines 117-120). -/
def availableTables (db : DB) (party : Nat) (date : String) (time : Nat) : List Table :=
  (suitableTables db party).filter (fun t => !((bookedTableIds db date time).contains t.id))

/-- Hour component of a minutes-from-midnight time, as int(HH) of the
formatted HH:MM string. -/
def hourOf (t : Nat) : Nat := t / 60

/-- Service-window test of suggest_alternative_times line 400: the source
skips a candidate when alt_hour < 17 or alt_hour >= 22, so a candidate
survives exactly when its hour lies in [17, 22). -/
def inServiceWindow (t : Nat) : Bool :=
  decide (17 ≤ hourOf t) && decide (hourOf t < 22)

/-- Candidate offset list of suggest_alternative_times line 393, in source
order: minus 90, minus 60, minus 30, plus 30, plus 60, plus 90 minutes. -/
def timeOffsets : List Int := [-90, -60, -30, 30, 60, 90]

/-- Adding a signed minute offset to a time of day, wrapping across
midnight exactly as datetime plus timedelta followed by strftime HH:MM. -/
def altTimeOf (req : Nat) (off : Int) : Nat :=
  (((req : Int) + off) % 1440).toNat

/-- Acceptance test of one candidate time inside the suggestion loop
(lines 405-422): at least one active table of sufficient capacity is not
booked at the candidate time.  The inner queries of the source recompute
exactly the availableTables computation. -/
def slotHasFreeTable (db : DB) (party : Nat) (date : String) (t : Nat) : Bool :=
  !(availableTables db party date t).isEmpty

/-- The suggestion loop of suggest_alternative_times lines 395-427: walk
the offsets in order, skip candidates outside the service window, append
an accepted candidate, and stop as soon as three are collected. -/
def suggestGo (db : DB) (date : String) (party : Nat) (req : Nat) :
    List Int → List Nat → List Nat
  | [], acc => acc
  | off :: rest, acc =>
      let t := altTimeOf req off
      if inServiceWindow t && slotHasFreeTable db party date t then
        let acc2 := acc ++ [t]
        if 3 ≤ acc2.length then acc2 else suggestGo db date party req rest acc2
      else suggestGo db date party req rest acc

/-- suggest_alternative_times of reservation_tools.py lines 384-429. -/
def suggest_alternative_times (db : DB) (date : String) (req : Nat) (party : Nat) : List Nat :=
  suggestGo db date party req timeOffsets []

/-- Outcome of check_availability: the three dictionary shapes returned by
the source, with only the fields other code reads. -/
inductive AvailResult where
  | notLargeEnough (alternatives : List Nat)
  | fullyBooked (alternatives : List Nat)
  | available (tables : List Table)
  deriving Repr, DecidableEq

/-- check_availability of reservation_tools.py lines 77-144.  The branch
with no suitable table returns the no-tables-large-enough reason together
with an empty suggested_alternatives list (lines 98-103); the fully-booked
branch delegates to the suggester (lines 122-131). -/
def check_availability (db : DB) (party : Nat) (date : String) (time : Nat) : AvailResult :=
  let suitable := suitableTables db party
  if suitable.isEmpty then .notLargeEnough []
  else
    let avail := availableTables db party date time
    if avail.isEmpty then .fullyBooked (suggest_alternative_times db date time party)
    else .available avail

/-- Python min over a nonempty list with a key function: scan left to
right keeping the current minimum, replacing it only on a strictly
smaller key, so the first element attaining the minimum wins. -/
def pyMinBy (k : Table → Nat) : Table → List Table → Table
  | a, [] => a
  | a, x :: xs => pyMinBy k (if k x < k a then x else a) xs

/-- Python min over a possibly empty list (none on the empty list, where
the source would raise and fall into its generic failure handler). -/
def pyMin (k : Table → Nat) : List Table → Option Table
  | [] => none
  | x :: xs => some (pyMinBy k x xs)

/-- Outcome of create_reservation, reduced to the fields other code
reads: failure carries the suggested alternatives, success carries the new
reservation id and the assigned table. -/
inductive CreateResult where
  | failure (alternatives : List Nat)
  | success (rid : Nat) (assigned : Table)
  deriving Repr, DecidableEq

/-- The read half of create_reservation (lines 177-190): run the
availability check and pick the smallest-capacity available table with
Python min. -/
def allocateTable (db : DB) (party : Nat) (date : String) (time : Nat) : Option Table :=
  match check_availability db party date time with
  | .available ts => pyMin (fun t => t.capacity) ts
  | _ => none

/-- The write half of create_reservation (lines 193-206): insert a new
confirmed reservation carrying the chosen table id, under the next
autoincrement id. -/
def insertReservation (db : DB) (nm : String) (party : Nat) (date : String) (time : Nat)
    (best : Table) : DB :=
  { db with
      resvs := db.resvs ++
        [{ id := db.next_id, name := nm, party_size := party, date := date,
           time := time, status := "confirmed", assigned_table_id := some best.id }],
      next_id := db.next_id + 1 }

/-- create_reservation of reservation_tools.py lines 147-242: availability
check, then smallest-fitting-table selection, then insertion.  The
unreachable empty-list case of min maps to the generic exception branch of
the source, which performs no write. -/
def create_reservation (db : DB) (nm : String) (party : Nat) (date : String) (time : Nat) :
    CreateResult × DB :=
  match check_availability db party date time with
  | .notLargeEnough alts => (.failure alts, db)
  | .fullyBooked alts => (.failure alts, db)
  | .available ts =>
      match pyMin (fun t => t.capacity) ts with
      | none => (.failure [], db)
      | some best => (.success db.next_id best, insertReservation db nm party date time best)

/-
Fuzzy name matching.  fuzzy_match_name (reservation_tools.py lines 18-48)
cleans both names and takes the larger of fuzz.ratio and the substring
variant fuzz partial ratio.  Those two library functions are embedded
below from their reference implementation: the Ratcliff-Obershelp matcher
of difflib (no junk, short strings, so no autojunk), with the similarity
2 * matches / total length rounded half-to-even after scaling by 100.
-/

/-- Name normalization of lines 36-37: lower-case, drop periods, drop
space characters.  The source replaces only the period and the plain
space, so other whitespace such as a tab survives. -/
def cleanName (s : String) : List Char :=
  (s.data.map Char.toLower).filter (fun c => !(c == '.' || c == ' '))

/-- Length of the common prefix of two character lists. -/
def commonLen : List Char → List Char → Nat
  | a :: as1, b :: bs1 => if a = b then commonLen as1 bs1 + 1 else 0
  | _, _ => 0

/-- All index pairs (i, j) with i < m and j < n, i-major, both ascending:
the scan order of the longest-match search. -/
def pairIndices (m n : Nat) : List (Nat × Nat) :=
  (List.range m).flatMap (fun i => (List.range n).map (fun j => (i, j)))

/-- One step of the longest-match scan: the candidate block starting at
(i, j) extends as the common prefix of the suffixes; it replaces the best
block only when strictly longer. -/
def flmStep (a b : List Char) (best : Nat × Nat × Nat) (ij : Nat × Nat) : Nat × Nat × Nat :=
  let k := commonLen (a.drop ij.1) (b.drop ij.2)
  if best.2.2 < k then (ij.1, ij.2, k) else best

/-- find_longest_match of difflib on whole strings: the start positions
and length of a longest common contiguous block, ties resolved toward the
smallest start in the first string and then in the second, realized by a
scan that replaces the best block only on a strictly longer match. -/
def findLongestMatch (a b : List Char) : Nat × Nat × Nat :=
  (pairIndices a.length b.length).foldl (flmStep a b) (0, 0, 0)

/-- get_matching_blocks of difflib without its terminal zero block:
recursively take the longest match and the blocks of the parts to its
left and to its right, positions made absolute.  Fuel bounds the
recursion; length of the first string plus one always suffices. -/
def matchBlocksAux : Nat → List Char → List Char → List (Nat × Nat × Nat)
  | 0, _, _ => []
  | fuel + 1, a, b =>
      let m := findLongestMatch a b
      if m.2.2 = 0 then []
      else
        matchBlocksAux fuel (a.take m.1) (b.take m.2.1)
          ++ [m]
          ++ (matchBlocksAux fuel (a.drop (m.1 + m.2.2)) (b.drop (m.2.1 + m.2.2))).map
              (fun x => (x.1 + m.1 + m.2.2, x.2.1 + m.2.1 + m.2.2, x.2.2))

/-- Matching blocks including the terminal (len a, len b, 0) block that
difflib appends and the substring scorer iterates over. -/
def matchBlocks (a b : List Char) : List (Nat × Nat × Nat) :=
  matchBlocksAux (a.length + 1) a b ++ [(a.length, b.length, 0)]

/-- Total number of matched characters, the sum of block sizes. -/
def matchTotal (a b : List Char) : Nat :=
  ((matchBlocksAux (a.length + 1) a b).map (fun x => x.2.2)).sum

/-- Python round to int (round half to even) of the fraction a over b,
for b positive: the utils.intr of fuzzywuzzy applied to a nonnegative
quantity, carried out on the exact fraction through integer division. -/
def roundHalfEven (a b : Nat) : Nat :=
  let q := a / b
  let r := a % b
  if 2 * r < b then q
  else if b < 2 * r then q + 1
  else if q % 2 = 0 then q else q + 1

/-- fuzz.ratio: the full-string similarity on the 0..100 scale, the
rounding of 100 times the SequenceMatcher ratio 2 M / T where M is the
matched-character total and T the total length, and 100 when both
strings are empty (ratio 1.0). -/
def ratioScore (a b : List Char) : Nat :=
  let t := a.length + b.length
  if t = 0 then 100 else roundHalfEven (200 * matchTotal a b) t

/-- The block loop of the fuzz substring scorer: for every matching block
of (shorter, longer), compare the shorter string against the equally long
slice of the longer one starting where the block aligns; return 100 at
once when a slice ratio exceeds 0.995, otherwise keep the running maximum
ratio and round 100 times it at the end.  A ratio 2 M / T is carried as
the numerator-denominator pair (2 M, T), compared by cross
multiplication; the empty-against-empty slice has ratio 1.0, above the
early-exit threshold. -/
def substrScoreGo (shorter longer : List Char) : List (Nat × Nat × Nat) → Nat × Nat → Nat
  | [], best => roundHalfEven (100 * best.1) best.2
  | blk :: rest, best =>
      let ls := blk.2.1 - blk.1
      let sub := (longer.drop ls).take shorter.length
      let m2 := 2 * matchTotal shorter sub
      let t := shorter.length + sub.length
      if t = 0 then 100
      else if 995 * t < 1000 * m2 then 100
      else substrScoreGo shorter longer rest
        (if best.1 * t < m2 * best.2 then (m2, t) else best)

/-- fuzz partial ratio: the substring similarity of two cleaned names,
computed on (shorter, longer) with the first string kept first on equal
lengths.  The running maximum starts at the ratio 0 (pair (0, 1)), which
is sound because every slice ratio is nonnegative and the block list is
never empty. -/
def substrScore (s1 s2 : List Char) : Nat :=
  let p := if s1.length ≤ s2.length then (s1, s2) else (s2, s1)
  substrScoreGo p.1 p.2 (matchBlocks p.1 p.2) (0, 1)

/-- The match score of fuzzy_match_name lines 39-46: the larger of the
full similarity and the substring similarity of the cleaned names.  The
cancellation path (lines 320-329) inlines this same computation. -/
def fuzzScore (s1 s2 : String) : Nat :=
  max (ratioScore (cleanName s1) (cleanName s2)) (substrScore (cleanName s1) (cleanName s2))

/-- fuzzy_match_name of reservation_tools.py lines 18-48. -/
def fuzzy_match_name (search_name database_name : String) (threshold : Nat := 75) : Bool :=
  decide (threshold ≤ fuzzScore search_name database_name)

/-
Cancellation.  cancel_reservation (reservation_tools.py lines 283-381).
-/

/-- Outcome of cancel_reservation: the missing-arguments error, the
not-found error, or success carrying the reservation dictionary as
returned after its status was set to cancelled. -/
inductive CancelResult where
  | needArgs
  | notFound
  | success (res : Reservation)
  deriving Repr, DecidableEq

/-- Boolean success test on a cancellation outcome. -/
def CancelResult.isSuccess : CancelResult → Bool
  | .success _ => true
  | _ => false

/-- Python truthiness of the optional reservation_id argument: present
and nonzero. -/
def ridTruthy : Option Nat → Bool
  | none => false
  | some i => i != 0

/-- Python truthiness of an optional string argument: present and
nonempty. -/
def strTruthy : Option String → Bool
  | none => false
  | some s => s != ""

/-- Status update of line 356 applied in place: set the status of the
first reservation with the given id to cancelled, leaving every other
field and row unchanged. -/
def markCancelledById (rid : Nat) : List Reservation → List Reservation
  | [] => []
  | r :: rs =>
      if r.id = rid then ({ r with status := "cancelled" }) :: rs
      else r :: markCancelledById rid rs

/-- Candidate set of the fuzzy cancellation path (lines 305-314):
confirmed reservations, narrowed by the optional date filter, in query
(primary-key) order. -/
def cancelCandidates (db : DB) (dt : Option String) : List Reservation :=
  (db.resvs.filter (fun r => r.status == "confirmed")).filter
    (fun r => match dt with
      | none => true
      | some d => r.date == d)

/-- Best-match loop of lines 317-333: best_match starts empty with
best_score 0 and a candidate replaces it only when its similarity is both
strictly greater than best_score and at least 75. -/
def bestFuzzyGo (nm : String) : List Reservation → Option Reservation → Nat → Option Reservation
  | [], best, _ => best
  | r :: rs, best, bestScore =>
      let s := fuzzScore nm r.name
      if bestScore < s ∧ 75 ≤ s then bestFuzzyGo nm rs (some r) s
      else bestFuzzyGo nm rs best bestScore

/-- The resolved target of a name-based cancellation. -/
def bestFuzzy (nm : String) (cands : List Reservation) : Option Reservation :=
  bestFuzzyGo nm cands none 0

/-- cancel_reservation of reservation_tools.py lines 283-381: direct id
lookup when a truthy id is given, otherwise fuzzy name resolution when a
truthy name is given, otherwise the missing-arguments error.  The id
lookup has no status filter, so an already cancelled reservation is found
again and cancelled again.  On not-found the state is unchanged. -/
def cancel_reservation (rid : Option Nat) (nm : Option String) (dt : Option String)
    (db : DB) : CancelResult × DB :=
  if ridTruthy rid then
    match db.resvs.find? (fun r => r.id == rid.getD 0) with
    | none => (.notFound, db)
    | some r => (.success ({ r with status := "cancelled" }),
                 { db with resvs := markCancelledById r.id db.resvs })
  else if strTruthy nm then
    match bestFuzzy (nm.getD "") (cancelCandidates db dt) with
    | none => (.notFound, db)
    | some r => (.success ({ r with status := "cancelled" }),
                 { db with resvs := markCancelledById r.id db.resvs })
  else (.needArgs, db)

/-
Experiment analytics.  calculate_t_statistic (app/main.py lines 617-668)
and the significance flagging of dashboard_ab_testing (lines 762-780).
-/

/-- Arithmetic mean of a sample (main.py lines 628-629). -/
def sampleMean (l : List ℚ) : ℚ := l.sum / (l.length : ℚ)

/-- Unbiased sample variance (main.py lines 632-633). -/
def sampleVar (l : List ℚ) : ℚ :=
  ((l.map (fun x => (x - sampleMean l) ^ 2)).sum) / ((l.length : ℚ) - 1)

/-- calculate_t_statistic of main.py lines 617-668, with the t statistic
represented by its square: the source only ever compares the absolute
value of t against positive constants, and for nonnegative quantities
that comparison is equivalent to comparing squares, so the square-root of
the pooled standard error is never needed.  Returns none when either
sample has fewer than two observations or the pooled standard error is
zero; otherwise returns (t squared, p value) with the p value from the
fixed breakpoints when the Welch-Satterthwaite degrees of freedom exceed
30 and the conservative 0.10 otherwise. -/
def calculate_t_statistic (s1 s2 : List ℚ) : Option (ℚ × ℚ) :=
  let n1 := s1.length
  let n2 := s2.length
  if n1 < 2 ∨ n2 < 2 then none
  else
    let m1 := sampleMean s1
    let m2 := sampleMean s2
    let v1 := sampleVar s1
    let v2 := sampleVar s2
    let se2 := v1 / (n1 : ℚ) + v2 / (n2 : ℚ)
    if se2 = 0 then none
    else
      let tsq := (m1 - m2) ^ 2 / se2
      let df := se2 ^ 2 /
        ((v1 / (n1 : ℚ)) ^ 2 / ((n1 : ℚ) - 1) + (v2 / (n2 : ℚ)) ^ 2 / ((n2 : ℚ) - 1))
      let p : ℚ :=
        if 30 < df then
          if ((258 : ℚ) / 100) ^ 2 < tsq then 1 / 100
          else if ((196 : ℚ) / 100) ^ 2 < tsq then 5 / 100
          else if ((164 : ℚ) / 100) ^ 2 < tsq then 10 / 100
          else 20 / 100
        else 10 / 100
      some (tsq, p)

/-- The significance flagging of dashboard_ab_testing lines 770-776 for
one non-leading variant: both samples need at least 30 observations, then
the t test runs and the variant is flagged only when the p value is
truthy and strictly below 0.05. -/
def isSignificant (best_scores other_scores : List ℚ) : Bool :=
  if 30 ≤ best_scores.length ∧ 30 ≤ other_scores.length then
    match calculate_t_statistic best_scores other_scores with
    | some (_, p) => decide (p ≠ 0 ∧ p < 5 / 100)
    | none => false
  else false

/-
Quality composite.  calculate_overall_score
(app/services/quality_analyzer.py lines 279-313).
-/

/-- Tier mapping of quality_analyzer.py lines 302-311. -/
def quality_tier (overall : ℚ) : String :=
  if 90 ≤ overall then "Excellent"
  else if 75 ≤ overall then "Great"
  else if 60 ≤ overall then "Good"
  else if 40 ≤ overall then "Fair"
  else "Poor"

/-- calculate_overall_score of quality_analyzer.py lines 279-313: the
weighted sum in the iteration order of the weights dictionary, then the
tier. -/
def calculate_overall_score (efficiency accuracy helpfulness naturalness professionalism : ℚ) :
    ℚ × String :=
  let overall := accuracy * (30 / 100) + helpfulness * (25 / 100) + efficiency * (20 / 100)
    + naturalness * (15 / 100) + professionalism * (10 / 100)
  (overall, quality_tier overall)

/-
The non-double-booking invariant of the specification.
-/

/-- Two reservation rows do not conflict: if both are confirmed at the
same date and time and both carry an assigned table, the table ids
differ. -/
def conflictFree (r1 r2 : Reservation) : Prop :=
  r1.status = "confirmed" → r2.status = "confirmed" → r1.date = r2.date → r1.time = r2.time →
  r1.assigned_table_id.isSome = true → r2.assigned_table_id.isSome = true →
  r1.assigned_table_id ≠ r2.assigned_table_id

instance : DecidableRel conflictFree := fun r1 r2 => by
  unfold conflictFree
  infer_instance

/-- No two reservation rows of the state conflict. -/
def noDoubleBooking (db : DB) : Prop :=
  db.resvs.Pairwise conflictFree

instance (db : DB) : Decidable (noDoubleBooking db) := by
  unfold noDoubleBooking
  infer_instance

/-
Concrete states and samples used by the theorems below.
-/

/-- Inventory with a single active four-seat table and no reservations. -/
def dbOneTable : DB := ⟨[⟨1, 1, 4, true⟩], [], 1⟩

/-- Inventory of capacities 2, 4, 4, 6 under ids 1, 2, 3, 4, with no
reservations. -/
def dbFourTables : DB :=
  ⟨[⟨1, 1, 2, true⟩, ⟨2, 2, 4, true⟩, ⟨3, 3, 4, true⟩, ⟨4, 4, 6, true⟩], [], 1⟩

/-- Two confirmed reservations under the same customer name; the row with
id 1 was created before the row with id 2. -/
def dbTwoRagi : DB :=
  ⟨[], [⟨1, "Ragi", 2, "2025-06-01", 1140, "confirmed", some 1⟩,
        ⟨2, "Ragi", 2, "2025-06-02", 1140, "confirmed", some 1⟩], 3⟩

/-- Thirty-five quality scores with mean 80 and sample variance 4. -/
def sampleA : List ℚ := List.replicate 17 82 ++ List.replicate 17 78 ++ [80]

/-- Thirty-five quality scores with mean 79 and sample variance 4. -/
def sampleB : List ℚ := List.replicate 17 81 ++ List.replicate 17 77 ++ [79]

/-- Modelled from the spec: the name normalization the specification
describes for fuzzy matching, which lower-cases and strips periods and
ALL whitespace.  It exists only to be compared against the implemented
cleanName, which strips the plain space character but no other
whitespace. -/
def cleanSpec (s : String) : List Char :=
  (s.data.map Char.toLower).filter (fun c => !(c == '.' || c.isWhitespace))

/-
Theorems.
-/

/-- Unfolding equation for the overall-score computation. -/
theorem calculate_overall_score_def (e a h n p : ℚ) :
    calculate_overall_score e a h n p
      = (a * (30 / 100) + h * (25 / 100) + e * (20 / 100) + n * (15 / 100) + p * (10 / 100),
         quality_tier
           (a * (30 / 100) + h * (25 / 100) + e * (20 / 100) + n * (15 / 100) + p * (10 / 100))) :=
  rfl

/-- The Excellent tier holds exactly from 90 up. -/
theorem quality_tier_excellent (o : ℚ) : quality_tier o = "Excellent" ↔ 90 ≤ o := by
  unfold quality_tier
  split_ifs with h1 h2 h3 h4 <;> simp [*]

/-- The Great tier holds exactly on [75, 90). -/
theorem quality_tier_great (o : ℚ) : quality_tier o = "Great" ↔ 75 ≤ o ∧ o < 90 := by
  unfold quality_tier
  split_ifs with h1 h2 h3 h4
  · simp only [show ("Excellent" = "Great") = False by simp, false_iff]
    rintro ⟨-, h6⟩; linarith
  · simp only [show ("Great" = "Great") = True by simp, true_iff]
    exact ⟨h2, by linarith [not_le.mp h1]⟩
  · simp only [show ("Good" = "Great") = False by simp, false_iff]
    rintro ⟨h5, -⟩; exact h2 h5
  · simp only [show ("Fair" = "Great") = False by simp, false_iff]
    rintro ⟨h5, -⟩; exact h2 h5
  · simp only [show ("Poor" = "Great") = False by simp, false_iff]
    rintro ⟨h5, -⟩; exact h2 h5

/-- The Good tier holds exactly on [60, 75). -/
theorem quality_tier_good (o : ℚ) : quality_tier o = "Good" ↔ 60 ≤ o ∧ o < 75 := by
  unfold quality_tier
  split_ifs with h1 h2 h3 h4
  · simp only [show ("Excellent" = "Good") = False by simp, false_iff]
    rintro ⟨-, h6⟩; linarith
  · simp only [show ("Great" = "Good") = False by simp, false_iff]
    rintro ⟨-, h6⟩; linarith
  · simp only [show ("Good" = "Good") = True by simp, true_iff]
    exact ⟨h3, by linarith [not_le.mp h2]⟩
  · simp only [show ("Fair" = "Good") = False by simp, false_iff]
    rintro ⟨h5, -⟩; exact h3 h5
  · simp only [show ("Poor" = "Good") = False by simp, false_iff]
    rintro ⟨h5, -⟩; exact h3 h5

/-- The Fair tier holds exactly on [40, 60). -/
theorem quality_tier_fair (o : ℚ) : quality_tier o = "Fair" ↔ 40 ≤ o ∧ o < 60 := by
  unfold quality_tier
  split_ifs with h1 h2 h3 h4
  · simp only [show ("Excellent" = "Fair") = False by simp, false_iff]
    rintro ⟨-, h6⟩; linarith
  · simp only [show ("Great" = "Fair") = False by simp, false_iff]
    rintro ⟨-, h6⟩; linarith
  · simp only [show ("Good" = "Fair") = False by simp, false_iff]
    rintro ⟨-, h6⟩; linarith
  · simp only [show ("Fair" = "Fair") = True by simp, true_iff]
    exact ⟨h4, by linarith [not_le.mp h3]⟩
  · simp only [show ("Poor" = "Fair") = False by simp, false_iff]
    rintro ⟨h5, -⟩; exact h4 h5

/-- The Poor tier holds exactly below 40. -/
theorem quality_tier_poor (o : ℚ) : quality_tier o = "Poor" ↔ o < 40 := by
  unfold quality_tier
  split_ifs with h1 h2 h3 h4
  · simp only [show ("Excellent" = "Poor") = False by simp, false_iff]
    intro h6; linarith
  · simp only [show ("Great" = "Poor") = False by simp, false_iff]
    intro h6; linarith
  · simp only [show ("Good" = "Poor") = False by simp, false_iff]
    intro h6; linarith
  · simp only [show ("Fair" = "Poor") = False by simp, false_iff]
    intro h6; linarith
  · simp only [show ("Poor" = "Poor") = True by simp, true_iff]
    exact not_le.mp h4

/-- C8.  The overall quality score is the fixed weighted sum with weights
0.30 accuracy, 0.25 helpfulness, 0.20 efficiency, 0.15 naturalness and
0.10 professionalism, the tier bands are Excellent from 90, Great on
[75, 90), Good on [60, 75), Fair on [40, 60) and Poor below 40, each
lower bound inclusive, and the dimension assignment efficiency 90,
accuracy 100, helpfulness 100, naturalness 80, professionalism 85 yields
overall 93.5 with tier Excellent. -/
theorem c8_overall_score_tiers :
    (∀ e a h n p : ℚ,
        (calculate_overall_score e a h n p).1
            = (30 / 100) * a + (25 / 100) * h + (20 / 100) * e + (15 / 100) * n + (10 / 100) * p
        ∧ ((calculate_overall_score e a h n p).2 = "Excellent"
            ↔ 90 ≤ (calculate_overall_score e a h n p).1)
        ∧ ((calculate_overall_score e a h n p).2 = "Great"
            ↔ 75 ≤ (calculate_overall_score e a h n p).1 ∧ (calculate_overall_score e a h n p).1 < 90)
        ∧ ((calculate_overall_score e a h n p).2 = "Good"
            ↔ 60 ≤ (calculate_overall_score e a h n p).1 ∧ (calculate_overall_score e a h n p).1 < 75)
        ∧ ((calculate_overall_score e a h n p).2 = "Fair"
            ↔ 40 ≤ (calculate_overall_score e a h n p).1 ∧ (calculate_overall_score e a h n p).1 < 60)
        ∧ ((calculate_overall_score e a h n p).2 = "Poor"
            ↔ (calculate_overall_score e a h n p).1 < 40))
    ∧ calculate_overall_score 90 100 100 80 85 = (187 / 2, "Excellent") := by
  constructor
  · intro e a h n p
    rw [calculate_overall_score_def]
    exact ⟨by ring, quality_tier_excellent _, quality_tier_great _, quality_tier_good _,
      quality_tier_fair _, quality_tier_poor _⟩
  · have h1 : (100 : ℚ) * (30 / 100) + 100 * (25 / 100) + 90 * (20 / 100) + 80 * (15 / 100)
        + 85 * (10 / 100) = 187 / 2 := by norm_num
    rw [calculate_overall_score_def, h1]
    exact Prod.ext rfl ((quality_tier_excellent _).mpr (by norm_num))

/-- C2.  The code flags a non-leading variant significant only for
p strictly below 0.05, but the p value assigned to the band
1.96 < abs t at most 2.58 is exactly 0.05, contradicting the source
comment that abs t above 1.96 means p below 0.05: with the 35-score
samples below the squared t statistic is 35/8, strictly above 1.96
squared, the test returns p = 0.05, and is_significant stays false; with
only the first ten scores of each sample it also stays false, as the
claim demands.  The first half of the claim therefore fails on the code:
a gap with abs t in (1.96, 2.58] is never flagged. -/
theorem c2_significance_strict_inequality :
    sampleA.length = 35 ∧ sampleB.length = 35
    ∧ calculate_t_statistic sampleA sampleB = some (35 / 8, 5 / 100)
    ∧ ((196 : ℚ) / 100) ^ 2 < 35 / 8
    ∧ isSignificant sampleA sampleB = false
    ∧ isSignificant (sampleA.take 10) (sampleB.take 10) = false := by
  have hlA : sampleA.length = 35 := by simp [sampleA]
  have hlB : sampleB.length = 35 := by simp [sampleB]
  have hmA : sampleMean sampleA = 80 := by
    unfold sampleMean
    rw [hlA]
    simp [sampleA, List.sum_append, List.sum_replicate, nsmul_eq_mul]
    norm_num
  have hmB : sampleMean sampleB = 79 := by
    unfold sampleMean
    rw [hlB]
    simp [sampleB, List.sum_append, List.sum_replicate, nsmul_eq_mul]
    norm_num
  have hvA : sampleVar sampleA = 4 := by
    unfold sampleVar
    rw [hmA, hlA]
    simp [sampleA, List.map_append, List.map_replicate, List.sum_append, List.sum_replicate,
      nsmul_eq_mul]
    norm_num
  have hvB : sampleVar sampleB = 4 := by
    unfold sampleVar
    rw [hmB, hlB]
    simp [sampleB, List.map_append, List.map_replicate, List.sum_append, List.sum_replicate,
      nsmul_eq_mul]
    norm_num
  have hts : calculate_t_statistic sampleA sampleB = some (35 / 8, 5 / 100) := by
    simp only [calculate_t_statistic]
    rw [hlA, hlB, hmA, hmB, hvA, hvB]
    norm_num
  refine ⟨hlA, hlB, hts, by norm_num, ?_, ?_⟩
  · simp only [isSignificant, hts]
    split_ifs with h30
    · rw [decide_eq_false_iff_not]
      rintro ⟨-, hlt⟩
      exact lt_irrefl _ hlt
    · rfl
  · have h10A : (sampleA.take 10).length = 10 := by simp [sampleA]
    have h10B : (sampleB.take 10).length = 10 := by simp [sampleB]
    simp only [isSignificant]
    rw [if_neg]
    rw [h10A, h10B]
    omega

/-- A sample variance is never negative once it is defined on at least
two observations. -/
theorem sampleVar_nonneg (l : List ℚ) (h : 2 ≤ l.length) : 0 ≤ sampleVar l := by
  unfold sampleVar
  apply div_nonneg
  · apply List.sum_nonneg
    intro x hx
    simp only [List.mem_map] at hx
    obtain ⟨y, -, rfl⟩ := hx
    positivity
  · have h2 : (2 : ℚ) ≤ (l.length : ℚ) := by exact_mod_cast h
    linarith

/-- C10.  calculate_t_statistic returns none when either sample has fewer
than two observations, and, for samples of size at least two, returns
none exactly when both sample variances vanish (equivalently, when the
pooled standard error is zero); a none result always leaves the
significance flag false. -/
theorem c10_t_statistic_guards :
    ∀ s1 s2 : List ℚ,
      (s1.length < 2 ∨ s2.length < 2 → calculate_t_statistic s1 s2 = none)
      ∧ (2 ≤ s1.length → 2 ≤ s2.length →
          (calculate_t_statistic s1 s2 = none ↔ sampleVar s1 = 0 ∧ sampleVar s2 = 0))
      ∧ (calculate_t_statistic s1 s2 = none → isSignificant s1 s2 = false) := by
  intro s1 s2
  refine ⟨?_, ?_, ?_⟩
  · intro h
    simp only [calculate_t_statistic]
    rw [if_pos h]
  · intro h1 h2
    have hn1 : ¬(s1.length < 2 ∨ s2.length < 2) := by omega
    have hl1 : (0 : ℚ) < (s1.length : ℚ) := by
      have : (2 : ℚ) ≤ (s1.length : ℚ) := by exact_mod_cast h1
      linarith
    have hl2 : (0 : ℚ) < (s2.length : ℚ) := by
      have : (2 : ℚ) ≤ (s2.length : ℚ) := by exact_mod_cast h2
      linarith
    have hv1 : 0 ≤ sampleVar s1 := sampleVar_nonneg s1 h1
    have hv2 : 0 ≤ sampleVar s2 := sampleVar_nonneg s2 h2
    simp only [calculate_t_statistic]
    rw [if_neg hn1]
    split_ifs with hse
    · simp only [true_iff]
      have hq := (add_eq_zero_iff_of_nonneg (div_nonneg hv1 hl1.le)
        (div_nonneg hv2 hl2.le)).mp hse
      constructor
      · rcases div_eq_zero_iff.mp hq.1 with h0 | h0
        · exact h0
        · exact absurd h0 hl1.ne'
      · rcases div_eq_zero_iff.mp hq.2 with h0 | h0
        · exact h0
        · exact absurd h0 hl2.ne'
    · constructor
      · intro hcon
        exact absurd hcon (by simp)
      · rintro ⟨e1, e2⟩
        exfalso
        apply hse
        rw [e1, e2]
        simp
  · intro h
    simp [isSignificant, h]

/-- Closed instance of C10: a one-observation sample and a zero-variance
pair both disable the t statistic, and significance stays false. -/
theorem c10_t_statistic_guards_witness :
    calculate_t_statistic [(5 : ℚ)] [1, 2] = none
    ∧ calculate_t_statistic [(4 : ℚ), 4] [7, 7] = none
    ∧ isSignificant [(4 : ℚ), 4] [7, 7] = false := by
  have hv : sampleVar [(4 : ℚ), 4] = 0 := by
    norm_num [sampleVar, sampleMean]
  have hv7 : sampleVar [(7 : ℚ), 7] = 0 := by
    norm_num [sampleVar, sampleMean]
  have hnone : calculate_t_statistic [(4 : ℚ), 4] [7, 7] = none :=
    ((c10_t_statistic_guards [(4 : ℚ), 4] [7, 7]).2.1 (by simp) (by simp)).mpr ⟨hv, hv7⟩
  exact ⟨(c10_t_statistic_guards [(5 : ℚ)] [1, 2]).1 (Or.inl (by simp)), hnone,
    (c10_t_statistic_guards [(4 : ℚ), 4] [7, 7]).2.2 hnone⟩

/-- C4.  check_availability never returns a table of capacity below the
party size, whatever the booking state, and when no active table is large
enough it returns the no-tables-large-enough outcome whose alternative
list is empty. -/
theorem c4_capacity_contract :
    ∀ (db : DB) (party : Nat) (date : String) (time : Nat),
      (∀ ts, check_availability db party date time = .available ts →
        ∀ t ∈ ts, party ≤ t.capacity)
      ∧ ((∀ t ∈ db.tables, t.is_active = true → t.capacity < party) →
          check_availability db party date time = .notLargeEnough [])
      ∧ (∀ alts, check_availability db party date time = .notLargeEnough alts → alts = []) := by
  intro db party date time
  refine ⟨?_, ?_, ?_⟩
  · intro ts h t ht
    simp only [check_availability] at h
    split_ifs at h with h1 h2
    injection h with h3
    subst h3
    have h4 := (List.mem_filter.mp ht).1
    have h5 := (List.mem_filter.mp h4).2
    rw [Bool.and_eq_true] at h5
    exact of_decide_eq_true h5.1
  · intro hno
    have hsuit : suitableTables db party = [] := by
      apply List.filter_eq_nil_iff.mpr
      intro t ht hpred
      rw [Bool.and_eq_true] at hpred
      have hcap : party ≤ t.capacity := of_decide_eq_true hpred.1
      exact absurd hcap (not_le.mpr (hno t ht hpred.2))
    simp [check_availability, hsuit]
  · intro alts h
    simp only [check_availability] at h
    split_ifs at h with h1 h2
    injection h with h3
    exact h3.symm

/-- Closed instance of C4: with a single two-seat table, a party of ten
gets the no-tables-large-enough outcome with an empty alternative
list. -/
theorem c4_capacity_contract_witness :
    check_availability ⟨[⟨1, 1, 2, true⟩], [], 1⟩ 10 "2025-06-01" 1140
      = .notLargeEnough [] :=
  (c4_capacity_contract ⟨[⟨1, 1, 2, true⟩], [], 1⟩ 10 "2025-06-01" 1140).2.1 (by decide)

/-- create_reservation is exactly its read half followed by its write
half: when the availability check and table selection of the read half
produce a table, the operation succeeds and persists through
insertReservation.  This equation justifies modelling two concurrent
create calls as two reads against the same state followed by the two
writes. -/
theorem create_reservation_eq_alloc_insert
    (db : DB) (nm : String) (party : Nat) (date : String) (time : Nat) (best : Table)
    (h : allocateTable db party date time = some best) :
    create_reservation db nm party date time
      = (.success db.next_id best, insertReservation db nm party date time best) := by
  cases hc : check_availability db party date time with
  | notLargeEnough alts =>
      simp only [allocateTable, hc] at h
      exact Option.noConfusion h
  | fullyBooked alts =>
      simp only [allocateTable, hc] at h
      exact Option.noConfusion h
  | available ts =>
      simp only [allocateTable, hc] at h
      simp only [create_reservation, hc]
      rw [h]

/-- C1.  The code cannot uphold the non-double-booking invariant under
concurrent creation: with a single free table, the read half of a second
create_reservation call executed before the first call commits chooses
the same table the first call chooses, and after both writes commit the
state holds two confirmed reservations for the same date, time and
assigned table id.  Sequentially the availability filter excludes booked
tables, but nothing re-validates the choice at write time. -/
theorem c1_concurrent_double_booking :
    noDoubleBooking dbOneTable
    ∧ allocateTable dbOneTable 2 "2025-07-04" 1140 = some ⟨1, 1, 4, true⟩
    ∧ create_reservation dbOneTable "Alice" 2 "2025-07-04" 1140
        = (.success 1 ⟨1, 1, 4, true⟩,
           insertReservation dbOneTable "Alice" 2 "2025-07-04" 1140 ⟨1, 1, 4, true⟩)
    ∧ ¬ noDoubleBooking
        (insertReservation (create_reservation dbOneTable "Alice" 2 "2025-07-04" 1140).2
          "Bob" 2 "2025-07-04" 1140 ⟨1, 1, 4, true⟩) := by
  exact ⟨by decide, by decide, by decide, by decide⟩

/-- Cancellation by id keeps the multiset of reservation ids: only the
status field of the first matching row changes. -/
theorem markCancelledById_ids (rid : Nat) (l : List Reservation) :
    (markCancelledById rid l).map (fun r => r.id) = l.map (fun r => r.id) := by
  induction l with
  | nil => rfl
  | cons r rs ih =>
      unfold markCancelledById
      split_ifs with h
      · simp
      · simp [ih]

/-- Unfolding of a successful id-directed cancellation: when the lookup
finds a row, the call returns success and only flips that row to
cancelled. -/
theorem cancel_by_id_state (db : DB) (i : Nat) (hi : i ≠ 0) (r0 : Reservation)
    (h0 : db.resvs.find? (fun r => r.id == i) = some r0) :
    cancel_reservation (some i) none none db
      = (.success ({ r0 with status := "cancelled" }),
         { db with resvs := markCancelledById r0.id db.resvs }) := by
  have ht : ridTruthy (some i) = true := by
    simp only [ridTruthy]
    exact bne_iff_ne.mpr hi
  unfold cancel_reservation
  rw [ht, if_pos rfl]
  simp only [Option.getD_some]
  rw [h0]

/-- C9.  Cancelling the same existing reservation id twice raises no
error and follows the fixed policy the code implements: both calls
return success, because the id lookup applies no status filter and
re-cancelling an already cancelled row succeeds again. -/
theorem c9_cancel_twice :
    ∀ (db : DB) (i : Nat), i ≠ 0 → (∃ r ∈ db.resvs, r.id = i) →
      (cancel_reservation (some i) none none db).1.isSuccess = true
      ∧ (cancel_reservation (some i) none none
          (cancel_reservation (some i) none none db).2).1.isSuccess = true := by
  intro db i hi hex
  have hfind : ∀ (l : List Reservation), (∃ r ∈ l, r.id = i) →
      ∃ r0, l.find? (fun r => r.id == i) = some r0 := by
    intro l hl
    rw [← Option.isSome_iff_exists]
    apply List.find?_isSome.mpr
    obtain ⟨r, hr, hid⟩ := hl
    exact ⟨r, hr, by simp [hid]⟩
  obtain ⟨r0, h0⟩ := hfind db.resvs hex
  have hc1 := cancel_by_id_state db i hi r0 h0
  have hex2 : ∃ r ∈ (cancel_reservation (some i) none none db).2.resvs, r.id = i := by
    rw [hc1]
    show ∃ r ∈ markCancelledById r0.id db.resvs, r.id = i
    obtain ⟨r, hr, hid⟩ := hex
    have hmem : i ∈ (markCancelledById r0.id db.resvs).map (fun r => r.id) := by
      rw [markCancelledById_ids]
      exact List.mem_map.mpr ⟨r, hr, hid⟩
    obtain ⟨r', hr', hid'⟩ := List.mem_map.mp hmem
    exact ⟨r', hr', hid'⟩
  obtain ⟨r1, h1⟩ := hfind _ hex2
  have hc2 := cancel_by_id_state _ i hi r1 h1
  constructor
  · rw [hc1]
    rfl
  · rw [hc2]
    rfl

/-- Closed instance of C9: on a state with one confirmed reservation of
id 1, cancelling id 1 twice succeeds both times. -/
theorem c9_cancel_twice_witness :
    (cancel_reservation (some 1) none none
        ⟨[⟨1, 1, 4, true⟩], [⟨1, "Ana", 2, "2025-06-01", 1140, "confirmed", some 1⟩], 2⟩).1.isSuccess
      = true
    ∧ (cancel_reservation (some 1) none none
        (cancel_reservation (some 1) none none
          ⟨[⟨1, 1, 4, true⟩], [⟨1, "Ana", 2, "2025-06-01", 1140, "confirmed", some 1⟩],
            2⟩).2).1.isSuccess = true :=
  c9_cancel_twice ⟨[⟨1, 1, 4, true⟩], [⟨1, "Ana", 2, "2025-06-01", 1140, "confirmed", some 1⟩], 2⟩
    1 (by decide) ⟨⟨1, "Ana", 2, "2025-06-01", 1140, "confirmed", some 1⟩, by simp, rfl⟩

/-- The Python min scan stays inside the candidate list. -/
theorem pyMinBy_mem (k : Table → Nat) :
    ∀ (l : List Table) (a : Table), pyMinBy k a l ∈ a :: l := by
  intro l
  induction l with
  | nil =>
      intro a
      simp [pyMinBy]
  | cons x xs ih =>
      intro a
      unfold pyMinBy
      split_ifs with h
      · exact List.mem_cons_of_mem a (ih x)
      · rcases List.mem_cons.mp (ih a) with h1 | h1
        · rw [h1]
          exact List.mem_cons_self a _
        · exact List.mem_cons_of_mem a (List.mem_cons_of_mem x h1)

/-- The Python min scan returns an element of minimal key. -/
theorem pyMinBy_le (k : Table → Nat) :
    ∀ (l : List Table) (a : Table), ∀ y ∈ a :: l, k (pyMinBy k a l) ≤ k y := by
  intro l
  induction l with
  | nil =>
      intro a y hy
      rcases List.mem_cons.mp hy with rfl | h
      · simp [pyMinBy]
      · simp at h
  | cons x xs ih =>
      intro a y hy
      unfold pyMinBy
      split_ifs with h
      · rcases List.mem_cons.mp hy with h1 | hy2
        · rw [h1]
          exact le_trans (ih x x (List.mem_cons_self x xs)) (le_of_lt h)
        · exact ih x y hy2
      · rcases List.mem_cons.mp hy with h1 | hy2
        · rw [h1]
          exact ih a a (List.mem_cons_self a xs)
        · rcases List.mem_cons.mp hy2 with h2 | hy3
          · rw [h2]
            exact le_trans (ih a a (List.mem_cons_self a xs)) (not_lt.mp h)
          · exact ih a y (List.mem_cons_of_mem a hy3)

/-- Because the Python min scan replaces its current best only on a
strictly smaller key, the element it returns is the first one attaining
the minimal key; along a list whose ids strictly increase, that is the
one with the least id among the ties. -/
theorem pyMinBy_tie (k : Table → Nat) :
    ∀ (l : List Table) (a : Table),
      (a :: l).Pairwise (fun u v => u.id < v.id) →
      ∀ y ∈ a :: l, k y = k (pyMinBy k a l) → (pyMinBy k a l).id ≤ y.id := by
  intro l
  induction l with
  | nil =>
      intro a hs y hy hk
      rcases List.mem_cons.mp hy with rfl | h
      · simp [pyMinBy]
      · simp at h
  | cons x xs ih =>
      intro a hs y hy hk
      have hs1 := (List.pairwise_cons.mp hs).1
      have hs2 := (List.pairwise_cons.mp hs).2
      have hx2 := (List.pairwise_cons.mp hs2).2
      unfold pyMinBy at hk ⊢
      split_ifs at hk ⊢ with h
      · rcases List.mem_cons.mp hy with h1 | hy2
        · exfalso
          rw [h1] at hk
          have hle := pyMinBy_le k xs x x (List.mem_cons_self x xs)
          omega
        · exact ih x hs2 y hy2 hk
      · have hsa : (a :: xs).Pairwise (fun u v => u.id < v.id) :=
          List.pairwise_cons.mpr ⟨fun b hb => hs1 b (List.mem_cons_of_mem x hb), hx2⟩
        rcases List.mem_cons.mp hy with h1 | hy2
        · rw [h1] at hk ⊢
          exact ih a hsa a (List.mem_cons_self a xs) hk
        · rcases List.mem_cons.mp hy2 with h2 | hy3
          · rw [h2] at hk ⊢
            rcases List.mem_cons.mp (pyMinBy_mem k xs a) with he | he
            · rw [he]
              exact le_of_lt (hs1 x (List.mem_cons_self x xs))
            · exfalso
              have hra : k (pyMinBy k a xs) ≤ k a :=
                pyMinBy_le k xs a a (List.mem_cons_self a xs)
              have hax : k a ≤ k x := not_lt.mp h
              have hka : k a = k (pyMinBy k a xs) := by omega
              have hid := ih a hsa a (List.mem_cons_self a xs) hka
              have hlt := (List.pairwise_cons.mp hsa).1 (pyMinBy k a xs) he
              omega
          · exact ih a hsa y (List.mem_cons_of_mem a hy3) hk

/-- C3.  The allocator of create_reservation picks, among the available
qualifying tables, one of minimal capacity, and among capacity ties the
one with the least id, provided the inventory is enumerated in ascending
id order as the primary-key scan of the source database does; on the
capacity-2,4,4,6 inventory a party of three gets the lowest-id
capacity-4 table (id 2). -/
theorem c3_allocator :
    (∀ (db : DB) (party : Nat) (date : String) (time : Nat) (t : Table),
        db.tables.Pairwise (fun u v => u.id < v.id) →
        pyMin (fun u => u.capacity) (availableTables db party date time) = some t →
        t ∈ availableTables db party date time
        ∧ ∀ u ∈ availableTables db party date time,
            t.capacity ≤ u.capacity ∧ (u.capacity = t.capacity → t.id ≤ u.id))
    ∧ create_reservation dbFourTables "Dana" 3 "2025-06-01" 1140
        = (.success 1 ⟨2, 2, 4, true⟩,
           insertReservation dbFourTables "Dana" 3 "2025-06-01" 1140 ⟨2, 2, 4, true⟩) := by
  constructor
  · intro db party date time t hsort hmin
    have havail : (availableTables db party date time).Pairwise (fun u v => u.id < v.id) :=
      (hsort.filter _).filter _
    cases he : availableTables db party date time with
    | nil =>
        rw [he] at hmin
        exact Option.noConfusion hmin
    | cons x xs =>
        rw [he] at hmin havail
        simp only [pyMin] at hmin
        injection hmin with ht
        subst ht
        constructor
        · exact pyMinBy_mem _ xs x
        · intro u hu
          exact ⟨pyMinBy_le _ xs x u hu, fun hcap => pyMinBy_tie _ xs x havail u hu hcap⟩
  · decide

/-- Closed instance of C3: on the capacity-2,4,4,6 inventory with a party
of three, the chosen table (id 2, capacity 4) is available, of minimal
capacity among the available qualifying tables, and of least id among the
capacity ties. -/
theorem c3_allocator_witness :
    (⟨2, 2, 4, true⟩ : Table) ∈ availableTables dbFourTables 3 "2025-06-01" 1140
    ∧ ∀ u ∈ availableTables dbFourTables 3 "2025-06-01" 1140,
        (⟨2, 2, 4, true⟩ : Table).capacity ≤ u.capacity
        ∧ (u.capacity = (⟨2, 2, 4, true⟩ : Table).capacity
            → (⟨2, 2, 4, true⟩ : Table).id ≤ u.id) :=
  c3_allocator.1 dbFourTables 3 "2025-06-01" 1140 ⟨2, 2, 4, true⟩ (by decide) (by decide)

/-- The suggestion loop with its running accumulator equals the first
three accepted candidates of the remaining offsets, appended to the
accumulator, as long as fewer than three are already collected. -/
theorem suggestGo_eq (db : DB) (date : String) (party : Nat) (req : Nat) :
    ∀ (offs : List Int) (acc : List Nat), acc.length < 3 →
      suggestGo db date party req offs acc
        = acc ++ ((offs.map (altTimeOf req)).filter
            (fun t => inServiceWindow t && slotHasFreeTable db party date t)).take
              (3 - acc.length) := by
  intro offs
  induction offs with
  | nil =>
      intro acc hacc
      simp [suggestGo]
  | cons off rest ih =>
      intro acc hacc
      have hlen : (acc ++ [altTimeOf req off]).length = acc.length + 1 := by simp
      simp only [suggestGo, List.map_cons, List.filter_cons]
      split_ifs with hcond h3
      · have h1 : 3 - acc.length = 1 := by
          rw [hlen] at h3
          omega
        rw [h1]
        rfl
      · have h3' : (acc ++ [altTimeOf req off]).length < 3 := by
          omega
        rw [ih (acc ++ [altTimeOf req off]) h3', hlen]
        have h1 : 3 - acc.length = (3 - (acc.length + 1)) + 1 := by
          rw [hlen] at h3
          omega
        rw [h1, List.take_succ_cons]
        simp
      · exact ih acc hacc

/-- C5, amended.  The suggester walks the offsets in the fixed source
order minus 90, minus 60, minus 30, plus 30, plus 60, plus 90 (earliest
candidate time first, not closest first), keeps a candidate exactly when
its hour lies in the 17 to 22 service window (upper bound excluded) and
some qualifying table is free at it, stops after three accepted
candidates, and returns them in the order tried; every returned time has
its hour inside the window, so for the 22:30 request no time at or after
22:00 is ever tried or returned, whatever the booking state. -/
theorem c5_suggester :
    ∀ (db : DB) (date : String) (req : Nat) (party : Nat),
      suggest_alternative_times db date req party
        = ((timeOffsets.map (altTimeOf req)).filter
            (fun t => inServiceWindow t && slotHasFreeTable db party date t)).take 3
      ∧ (∀ t ∈ suggest_alternative_times db date req party,
          17 ≤ hourOf t ∧ hourOf t < 22 ∧ t < 22 * 60)
      ∧ (∀ t ∈ suggest_alternative_times db date (22 * 60 + 30) party, t < 22 * 60) := by
  intro db date req party
  have heq : ∀ r : Nat, suggest_alternative_times db date r party
      = ((timeOffsets.map (altTimeOf r)).filter
          (fun t => inServiceWindow t && slotHasFreeTable db party date t)).take 3 := by
    intro r
    unfold suggest_alternative_times
    rw [suggestGo_eq db date party r timeOffsets [] (by norm_num)]
    simp
  have hmem : ∀ r : Nat, ∀ t ∈ suggest_alternative_times db date r party,
      17 ≤ hourOf t ∧ hourOf t < 22 ∧ t < 22 * 60 := by
    intro r t htmem
    rw [heq r] at htmem
    have h1 := List.mem_of_mem_take htmem
    have h2 := (List.mem_filter.mp h1).2
    rw [Bool.and_eq_true] at h2
    have hw := h2.1
    unfold inServiceWindow at hw
    rw [Bool.and_eq_true] at hw
    have ha := of_decide_eq_true hw.1
    have hb := of_decide_eq_true hw.2
    refine ⟨ha, hb, ?_⟩
    unfold hourOf at hb
    omega
  exact ⟨heq req, hmem req, fun t ht => (hmem (22 * 60 + 30) t ht).2.2⟩

/-- Closed instance of C5: for a 22:30 request both returned candidates
(21:00 and 21:30) lie before 22:00. -/
theorem c5_suggester_witness :
    suggest_alternative_times dbOneTable "2025-06-01" 1350 2 = [1260, 1290]
    ∧ ∀ t ∈ suggest_alternative_times dbOneTable "2025-06-01" 1350 2, t < 1320 :=
  ⟨by decide, fun t ht => (c5_suggester dbOneTable "2025-06-01" 1350 2).2.2 t ht⟩

/-- C5 counterexample to the claimed closest-first ranking: at a 19:00
request with one table and every slot free, the code returns 17:30,
18:00, 18:30 in that order, so the first candidate tried and returned is
the minus-90-minute one while the closest candidate 18:30 (minus 30
minutes) comes last; a closest-in-time-first ranking would have tried a
30-minute offset first. -/
theorem c5_offsets_counterexample :
    suggest_alternative_times dbOneTable "2025-06-01" 1140 2 = [1050, 1080, 1110]
    ∧ 1050 + 90 = 1140 ∧ 1110 + 30 = 1140 :=
  ⟨by decide, by norm_num, by norm_num⟩

/-- Invariant proof for the best-match loop of the fuzzy cancellation
path.  Carrying a current best (with its score, its threshold clearance
and its id below every remaining id) and the current best score, the loop
returns none exactly from an empty best with every remaining score below
the threshold, and otherwise an element that clears the threshold, beats
the running score, is maximal among survivors, and, score ties included,
has the least id, because a candidate replaces the best only on a
strictly greater score. -/
theorem bestFuzzyGo_spec (nm : String) :
    ∀ (l : List Reservation) (best : Option Reservation) (bs : Nat),
      (∀ r, best = some r → bs = fuzzScore nm r.name ∧ 75 ≤ bs ∧ ∀ c ∈ l, r.id < c.id) →
      (best = none → bs = 0) →
      l.Pairwise (fun u v => u.id < v.id) →
      (bestFuzzyGo nm l best bs = none →
        best = none ∧ ∀ c ∈ l, fuzzScore nm c.name < 75)
      ∧ (∀ r, bestFuzzyGo nm l best bs = some r →
          (best = some r ∨ (r ∈ l ∧ bs < fuzzScore nm r.name))
          ∧ 75 ≤ fuzzScore nm r.name
          ∧ bs ≤ fuzzScore nm r.name
          ∧ (∀ c ∈ l, fuzzScore nm c.name ≤ fuzzScore nm r.name ∨ fuzzScore nm c.name < 75)
          ∧ (∀ c ∈ l, fuzzScore nm c.name = fuzzScore nm r.name → r.id ≤ c.id)) := by
  intro l
  induction l with
  | nil =>
      intro best bs h1 h2 hp
      constructor
      · intro hres
        exact ⟨hres, fun c hc => absurd hc (List.not_mem_nil c)⟩
      · intro r hres
        obtain ⟨e1, e2, -⟩ := h1 r hres
        refine ⟨Or.inl hres, by omega, le_of_eq e1, ?_, ?_⟩
        · intro c hc
          exact absurd hc (List.not_mem_nil c)
        · intro c hc
          exact absurd hc (List.not_mem_nil c)
  | cons c0 cs ih =>
      intro best bs h1 h2 hp
      have hp1 := (List.pairwise_cons.mp hp).1
      have hp2 := (List.pairwise_cons.mp hp).2
      simp only [bestFuzzyGo]
      split_ifs with hc
      · obtain ⟨htake1, htake2⟩ := hc
        have ih' := ih (some c0) (fuzzScore nm c0.name)
          (fun r hr => by
            injection hr with hr'
            exact ⟨by rw [hr'], htake2, by
              intro c hcin
              rw [← hr']
              exact hp1 c hcin⟩)
          (fun hn => Option.noConfusion hn)
          hp2
        constructor
        · intro hres
          exact Option.noConfusion (ih'.1 hres).1
        · intro r hres
          obtain ⟨ha, hb, hcle, hmax, htie⟩ := ih'.2 r hres
          refine ⟨?_, hb, ?_, ?_, ?_⟩
          · right
            rcases ha with he | ⟨hmem, hlt⟩
            · injection he with he'
              exact ⟨by rw [← he']; exact List.mem_cons_self c0 cs,
                by rw [← he']; exact htake1⟩
            · exact ⟨List.mem_cons_of_mem c0 hmem, lt_of_lt_of_le htake1 hcle⟩
          · exact le_of_lt (lt_of_lt_of_le htake1 hcle)
          · intro c hcin
            rcases List.mem_cons.mp hcin with h4 | h4
            · left
              rw [h4]
              exact hcle
            · exact hmax c h4
          · intro c hcin hceq
            rcases List.mem_cons.mp hcin with h4 | h4
            · rcases ha with he | ⟨hmem, hlt⟩
              · injection he with he'
                rw [h4, ← he']
              · exfalso
                rw [h4] at hceq
                omega
            · exact htie c h4 hceq
      · have ih' := ih best bs
          (fun r hr =>
            ⟨(h1 r hr).1, (h1 r hr).2.1,
             fun c hcin => (h1 r hr).2.2 c (List.mem_cons_of_mem c0 hcin)⟩)
          h2 hp2
        constructor
        · intro hres
          obtain ⟨hb0, hall⟩ := ih'.1 hres
          refine ⟨hb0, ?_⟩
          intro c hcin
          rcases List.mem_cons.mp hcin with h4 | h4
          · rw [h4]
            have hbs0 := h2 hb0
            by_contra hge
            push_neg at hge
            exact hc ⟨by omega, hge⟩
          · exact hall c h4
        · intro r hres
          obtain ⟨ha, hb, hcle, hmax, htie⟩ := ih'.2 r hres
          refine ⟨?_, hb, hcle, ?_, ?_⟩
          · rcases ha with he | ⟨hmem, hlt⟩
            · exact Or.inl he
            · exact Or.inr ⟨List.mem_cons_of_mem c0 hmem, hlt⟩
          · intro c hcin
            rcases List.mem_cons.mp hcin with h4 | h4
            · rw [h4]
              by_cases h75 : 75 ≤ fuzzScore nm c0.name
              · left
                have hsbs : fuzzScore nm c0.name ≤ bs := by
                  by_contra hx
                  push_neg at hx
                  exact hc ⟨hx, h75⟩
                omega
              · right
                omega
            · exact hmax c h4
          · intro c hcin hceq
            rcases List.mem_cons.mp hcin with h4 | h4
            · subst h4
              have h75 : 75 ≤ fuzzScore nm c.name := by omega
              have hsbs : fuzzScore nm c.name ≤ bs := by
                by_contra hx
                push_neg at hx
                exact hc ⟨hx, h75⟩
              rcases ha with he | ⟨hmem, hlt⟩
              · exact le_of_lt ((h1 r he).2.2 c (List.mem_cons_self c cs))
              · exfalso
                omega
            · exact htie c h4 hceq

/-- The best-match resolution of a name-based cancellation: none exactly
on an all-below-threshold candidate list, otherwise the maximal-score
candidate with ids breaking ties toward the least. -/
theorem bestFuzzy_spec (nm : String) (cands : List Reservation)
    (hp : cands.Pairwise (fun u v => u.id < v.id)) :
    (bestFuzzy nm cands = none → ∀ c ∈ cands, fuzzScore nm c.name < 75)
    ∧ (∀ r, bestFuzzy nm cands = some r →
        r ∈ cands ∧ 75 ≤ fuzzScore nm r.name
        ∧ (∀ c ∈ cands, fuzzScore nm c.name ≤ fuzzScore nm r.name ∨ fuzzScore nm c.name < 75)
        ∧ (∀ c ∈ cands, fuzzScore nm c.name = fuzzScore nm r.name → r.id ≤ c.id)) := by
  have h := bestFuzzyGo_spec nm cands none 0 (fun r hr => Option.noConfusion hr)
    (fun _ => rfl) hp
  constructor
  · intro hres
    exact (h.1 hres).2
  · intro r hres
    obtain ⟨ha, hb, -, hmax, htie⟩ := h.2 r hres
    rcases ha with he | ⟨hmem, -⟩
    · exact Option.noConfusion he
    · exact ⟨hmem, hb, hmax, htie⟩

/-- When every candidate stays below the threshold the best-match loop
never takes anything. -/
theorem bestFuzzyGo_none (nm : String) :
    ∀ (l : List Reservation), (∀ c ∈ l, fuzzScore nm c.name < 75) →
      bestFuzzyGo nm l none 0 = none := by
  intro l
  induction l with
  | nil =>
      intro h
      rfl
  | cons c cs ih =>
      intro h
      simp only [bestFuzzyGo]
      rw [if_neg]
      · exact ih (fun d hd => h d (List.mem_cons_of_mem c hd))
      · rintro ⟨-, h75⟩
        exact absurd h75 (not_le.mpr (h c (List.mem_cons_self c cs)))

/-- C6, amended.  A name-based cancellation cancels, among the confirmed
reservations passing the optional date filter, the single candidate of
highest fuzzy score at least 75, with score ties broken toward the
EARLIEST-created (lowest-id, first-enumerated) reservation - not the most
recent one as claimed; when no candidate reaches 75 it returns not-found
and writes nothing.  The id hypothesis states that the query enumerates
rows in ascending primary-key order, which is creation order. -/
theorem c6_cancel_by_name :
    ∀ (db : DB) (nm : String) (dt : Option String),
      db.resvs.Pairwise (fun u v => u.id < v.id) →
      nm ≠ "" →
      ((∀ c ∈ cancelCandidates db dt, fuzzScore nm c.name < 75) →
          cancel_reservation none (some nm) dt db = (.notFound, db))
      ∧ (∀ r, bestFuzzy nm (cancelCandidates db dt) = some r →
          r ∈ cancelCandidates db dt
          ∧ 75 ≤ fuzzScore nm r.name
          ∧ (∀ c ∈ cancelCandidates db dt, 75 ≤ fuzzScore nm c.name →
              fuzzScore nm c.name ≤ fuzzScore nm r.name)
          ∧ (∀ c ∈ cancelCandidates db dt,
              fuzzScore nm c.name = fuzzScore nm r.name → r.id ≤ c.id)
          ∧ cancel_reservation none (some nm) dt db
              = (.success ({ r with status := "cancelled" }),
                 { db with resvs := markCancelledById r.id db.resvs })) := by
  intro db nm dt hp hnm
  have hpc : (cancelCandidates db dt).Pairwise (fun u v => u.id < v.id) :=
    (hp.filter _).filter _
  have hspec := bestFuzzy_spec nm (cancelCandidates db dt) hpc
  have hname : strTruthy (some nm) = true := by
    simp only [strTruthy]
    exact bne_iff_ne.mpr hnm
  have hrid : ¬ ridTruthy (none : Option Nat) = true := by
    simp [ridTruthy]
  constructor
  · intro hall
    have hnone : bestFuzzy nm (cancelCandidates db dt) = none := bestFuzzyGo_none nm _ hall
    unfold cancel_reservation
    rw [if_neg hrid, hname, if_pos rfl]
    simp only [Option.getD_some]
    rw [hnone]
  · intro r hres
    obtain ⟨hmem, hb, hmax, htie⟩ := hspec.2 r hres
    refine ⟨hmem, hb, ?_, htie, ?_⟩
    · intro c hcin h75c
      rcases hmax c hcin with h4 | h4
      · exact h4
      · omega
    · unfold cancel_reservation
      rw [if_neg hrid, hname, if_pos rfl]
      simp only [Option.getD_some]
      rw [hres]

/-- Closed instance of C6 (amended): cancelling by the exact stored name
on the two-row state resolves to the id-1 row (score 100, least id among
the ties) and flips exactly its status. -/
theorem c6_cancel_by_name_witness :
    cancel_reservation none (some "Ragi") none dbTwoRagi
      = (.success ⟨1, "Ragi", 2, "2025-06-01", 1140, "cancelled", some 1⟩,
         { dbTwoRagi with resvs := markCancelledById 1 dbTwoRagi.resvs }) :=
  ((c6_cancel_by_name dbTwoRagi "Ragi" none (by decide) (by decide)).2
    ⟨1, "Ragi", 2, "2025-06-01", 1140, "confirmed", some 1⟩ (by decide)).2.2.2.2

/-- C6 counterexample to the claimed tie break: with two confirmed
reservations both named Ragi (ids 1 and 2, id 2 created later), a
name-based cancellation of Ragi scores both at 100 and cancels id 1, the
OLDEST, because the loop replaces its best only on a strictly greater
score; the claim says the most recently created (id 2) is cancelled. -/
theorem c6_tie_counterexample :
    (cancel_reservation none (some "Ragi") none dbTwoRagi).2.resvs.map
        (fun r => (r.id, r.status))
      = [(1, "cancelled"), (2, "confirmed")] := by
  decide

/-- A common prefix is no longer than the first list. -/
theorem commonLen_le_left : ∀ (a b : List Char), commonLen a b ≤ a.length := by
  intro a
  induction a with
  | nil =>
      intro b
      cases b <;> simp [commonLen]
  | cons x xs ih =>
      intro b
      cases b with
      | nil => simp [commonLen]
      | cons y ys =>
          simp only [commonLen]
          split_ifs with h


          · simpa using Nat.add_le_add_right (ih ys) 1
          · simp

/-- A common prefix is no longer than the second list. -/
theorem commonLen_le_right : ∀ (a b : List Char), commonLen a b ≤ b.length := by
  intro a
  induction a with
  | nil =>
      intro b
      cases b <;> simp [commonLen]
  | cons x xs ih =>
      intro b
      cases b with
      | nil => simp [commonLen]
      | cons y ys =>
          simp only [commonLen]
          split_ifs with h
          · simpa using Nat.add_le_add_right (ih ys) 1
          · simp

/-- A list matched against itself extends its common prefix fully. -/
theorem commonLen_self : ∀ (a : List Char), commonLen a a = a.length := by
  intro a
  induction a with
  | nil => rfl
  | cons x xs ih => simp [commonLen, ih]

/-- Membership in the index-pair enumeration bounds both components. -/
theorem mem_pairIndices {m n : Nat} {ij : Nat × Nat} (h : ij ∈ pairIndices m n) :
    ij.1 < m ∧ ij.2 < n := by
  unfold pairIndices at h
  simp only [List.mem_flatMap, List.mem_map, List.mem_range] at h
  obtain ⟨i, hi, j, hj, rfl⟩ := h
  exact ⟨hi, hj⟩

/-- The longest-match scan keeps its block inside both strings. -/
theorem flmStep_fold_bound (a b : List Char) :
    ∀ (L : List (Nat × Nat)) (best : Nat × Nat × Nat),
      (∀ ij ∈ L, ij.1 < a.length ∧ ij.2 < b.length) →
      best.1 + best.2.2 ≤ a.length → best.2.1 + best.2.2 ≤ b.length →
      (L.foldl (flmStep a b) best).1 + (L.foldl (flmStep a b) best).2.2 ≤ a.length
      ∧ (L.foldl (flmStep a b) best).2.1 + (L.foldl (flmStep a b) best).2.2 ≤ b.length := by
  intro L
  induction L with
  | nil =>
      intro best h ha hb
      exact ⟨ha, hb⟩
  | cons ij L2 ih =>
      intro best h ha hb
      simp only [List.foldl_cons]
      have hij := h ij (List.mem_cons_self ij L2)
      apply ih
      · intro p hp
        exact h p (List.mem_cons_of_mem ij hp)
      · simp only [flmStep]
        split_ifs with hk
        · have h2 : commonLen (a.drop ij.1) (b.drop ij.2) ≤ a.length - ij.1 := by
            have := commonLen_le_left (a.drop ij.1) (b.drop ij.2)
            rwa [List.length_drop] at this
          have h3 := hij.1
          simp only
          omega
        · exact ha
      · simp only [flmStep]
        split_ifs with hk
        · have h2 : commonLen (a.drop ij.1) (b.drop ij.2) ≤ b.length - ij.2 := by
            have := commonLen_le_right (a.drop ij.1) (b.drop ij.2)
            rwa [List.length_drop] at this
          have h3 := hij.2
          simp only
          omega
        · exact hb

/-- The block chosen by find_longest_match lies inside both strings. -/
theorem findLongestMatch_bound (a b : List Char) :
    (findLongestMatch a b).1 + (findLongestMatch a b).2.2 ≤ a.length
    ∧ (findLongestMatch a b).2.1 + (findLongestMatch a b).2.2 ≤ b.length :=
  flmStep_fold_bound a b (pairIndices a.length b.length) (0, 0, 0)
    (fun ij hij => mem_pairIndices hij) (by simp) (by simp)

/-- The longest-match scan dominates the candidate at every visited index
pair and never shrinks its best length. -/
theorem flmStep_fold_ge (a b : List Char) :
    ∀ (L : List (Nat × Nat)) (best : Nat × Nat × Nat),
      (∀ ij ∈ L, commonLen (a.drop ij.1) (b.drop ij.2) ≤ (L.foldl (flmStep a b) best).2.2)
      ∧ best.2.2 ≤ (L.foldl (flmStep a b) best).2.2 := by
  intro L
  induction L with
  | nil =>
      intro best
      exact ⟨fun ij hij => absurd hij (List.not_mem_nil ij), le_refl _⟩
  | cons ij L2 ih =>
      intro best
      simp only [List.foldl_cons]
      have hstep : best.2.2 ≤ (flmStep a b best ij).2.2
          ∧ commonLen (a.drop ij.1) (b.drop ij.2) ≤ (flmStep a b best ij).2.2 := by
        simp only [flmStep]
        split_ifs with hk
        · exact ⟨le_of_lt hk, le_refl _⟩
        · exact ⟨le_refl _, not_lt.mp hk⟩
      constructor
      · intro p hp
        rcases List.mem_cons.mp hp with h4 | h4
        · rw [h4]
          exact le_trans hstep.2 (ih (flmStep a b best ij)).2
        · exact (ih (flmStep a b best ij)).1 p h4
      · exact le_trans hstep.1 (ih (flmStep a b best ij)).2

/-- On a nonempty string matched against itself, find_longest_match
returns the whole string as its block. -/
theorem findLongestMatch_self (a : List Char) (h : a ≠ []) :
    findLongestMatch a a = (0, 0, a.length) := by
  have hpos : 0 < a.length := List.length_pos.mpr h
  have hmem : ((0, 0) : Nat × Nat) ∈ pairIndices a.length a.length := by
    unfold pairIndices
    simp only [List.mem_flatMap, List.mem_map, List.mem_range]
    exact ⟨0, hpos, 0, hpos, rfl⟩
  have hge0 := (flmStep_fold_ge a a (pairIndices a.length a.length) (0, 0, 0)).1 (0, 0) hmem
  rw [List.drop_zero, commonLen_self] at hge0
  have hge : a.length ≤ (findLongestMatch a a).2.2 := hge0
  have hb := findLongestMatch_bound a a
  have h22 : (findLongestMatch a a).2.2 = a.length := by omega
  have h1 : (findLongestMatch a a).1 = 0 := by omega
  have h21 : (findLongestMatch a a).2.1 = 0 := by omega
  exact Prod.ext h1 (Prod.ext h21 h22)

/-- The block decomposition of an empty first string is empty. -/
theorem matchBlocksAux_nil_left : ∀ (fuel : Nat) (b : List Char),
    matchBlocksAux fuel [] b = [] := by
  intro fuel b
  cases fuel with
  | zero => rfl
  | succ f => rfl

/-- Shifting block positions leaves block sizes, hence their sum,
unchanged. -/
theorem sum_map_shift (d f e : Nat) : ∀ (L : List (Nat × Nat × Nat)),
    ((L.map (fun x => (x.1 + d + e, x.2.1 + f + e, x.2.2))).map (fun x => x.2.2)).sum
      = (L.map (fun x => x.2.2)).sum := by
  intro L
  induction L with
  | nil => rfl
  | cons y ys ih =>
      simp only [List.map_cons, List.sum_cons]
      rw [ih]

/-- The matched-character total never exceeds either string length. -/
theorem matchBlocksAux_sum_le : ∀ (fuel : Nat) (a b : List Char),
    ((matchBlocksAux fuel a b).map (fun x => x.2.2)).sum ≤ a.length
    ∧ ((matchBlocksAux fuel a b).map (fun x => x.2.2)).sum ≤ b.length := by
  intro fuel
  induction fuel with
  | zero =>
      intro a b
      simp [matchBlocksAux]
  | succ f ih =>
      intro a b
      simp only [matchBlocksAux]
      split_ifs with hk
      · simp
      · have hbound := findLongestMatch_bound a b
        obtain ⟨ihl1, ihl2⟩ := ih (a.take (findLongestMatch a b).1)
          (b.take (findLongestMatch a b).2.1)
        obtain ⟨ihr1, ihr2⟩ := ih
          (a.drop ((findLongestMatch a b).1 + (findLongestMatch a b).2.2))
          (b.drop ((findLongestMatch a b).2.1 + (findLongestMatch a b).2.2))
        simp only [List.length_take, List.length_drop] at ihl1 ihr1 ihl2 ihr2
        simp only [List.map_append, List.sum_append, List.map_cons, List.sum_cons,
          List.map_nil, List.sum_nil]
        rw [sum_map_shift]
        have hmin1 : (findLongestMatch a b).1 ⊓ a.length ≤ (findLongestMatch a b).1 :=
          min_le_left _ _
        have hmin2 : (findLongestMatch a b).2.1 ⊓ b.length ≤ (findLongestMatch a b).2.1 :=
          min_le_left _ _
        constructor
        · omega
        · omega

/-- The matched total of a string against itself is its full length. -/
theorem matchTotal_self (a : List Char) : matchTotal a a = a.length := by
  unfold matchTotal
  cases ha : a with
  | nil => rfl
  | cons x xs =>
      rw [← ha]
      have hne : a ≠ [] := by
        rw [ha]
        exact List.cons_ne_nil x xs
      have hflm := findLongestMatch_self a hne
      have hlen : a.length = xs.length + 1 := by
        rw [ha]
        rfl
      simp only [matchBlocksAux, hflm]
      rw [if_neg (by omega)]
      simp only [List.take_zero, Nat.zero_add, List.drop_length, matchBlocksAux_nil_left]
      simp

/-- The full-ratio score of identical cleaned strings is 100. -/
theorem roundHalfEven_exact (c b : Nat) (hb : b ≠ 0) : roundHalfEven (c * b) b = c := by
  simp only [roundHalfEven]
  have h1 : c * b / b = c := Nat.mul_div_cancel c (Nat.pos_of_ne_zero hb)
  have h2 : c * b % b = 0 := Nat.mul_mod_left c b
  rw [h1, h2]
  have hbp : 0 < b := Nat.pos_of_ne_zero hb
  rw [if_pos (by omega)]

/-- fuzz.ratio of a string against itself is 100. -/
theorem ratioScore_self (a : List Char) : ratioScore a a = 100 := by
  unfold ratioScore
  by_cases h : a = []
  · subst h
    rfl
  · have hpos : 0 < a.length := List.length_pos.mpr h
    rw [if_neg (by omega)]
    rw [matchTotal_self]
    have h2 : 200 * a.length = 100 * (a.length + a.length) := by ring
    rw [h2, roundHalfEven_exact 100 (a.length + a.length) (by omega)]

/-- Rounding 100 times a ratio at most one never exceeds 100. -/
theorem roundHalfEven_le_100 (a b : Nat) (hab : a ≤ b) (hb : b ≠ 0) :
    roundHalfEven (100 * a) b ≤ 100 := by
  have hbp : 0 < b := Nat.pos_of_ne_zero hb
  have hq100 : 100 * a / b ≤ 100 := by
    calc 100 * a / b ≤ 100 * b / b := Nat.div_le_div_right (by omega)
    _ = 100 := Nat.mul_div_cancel 100 hbp
  have hdm := Nat.div_add_mod (100 * a) b
  have hmlt : (100 * a) % b < b := Nat.mod_lt _ hbp
  have hle : 100 * a ≤ 100 * b := by omega
  simp only [roundHalfEven]
  split_ifs with c1 c2 c3
  · exact hq100
  · by_cases hq : 100 * a / b = 100
    · exfalso
      rw [hq] at hdm
      omega
    · omega
  · exact hq100
  · by_cases hq : 100 * a / b = 100
    · exfalso
      rw [hq] at hdm
      omega
    · omega

/-- The substring-score loop stays at most 100 whenever the running best
pair denotes a ratio at most one with a nonzero denominator. -/
theorem substrScoreGo_le (shorter longer : List Char) :
    ∀ (blocks : List (Nat × Nat × Nat)) (best : Nat × Nat),
      best.1 ≤ best.2 → best.2 ≠ 0 →
      substrScoreGo shorter longer blocks best ≤ 100 := by
  intro blocks
  induction blocks with
  | nil =>
      intro best h1 h2
      exact roundHalfEven_le_100 best.1 best.2 h1 h2
  | cons blk rest ih =>
      intro best h1 h2
      simp only [substrScoreGo]
      split_ifs with h0 hearly hrepl
      · exact le_refl _
      · exact le_refl _
      · apply ih
        · have hm := matchBlocksAux_sum_le
            (shorter.length + 1) shorter
            ((longer.drop (blk.2.1 - blk.1)).take shorter.length)
          have hm1 := hm.1
          have hm2 := hm.2
          show 2 * matchTotal shorter ((longer.drop (blk.2.1 - blk.1)).take shorter.length)
            ≤ shorter.length + ((longer.drop (blk.2.1 - blk.1)).take shorter.length).length
          unfold matchTotal
          omega
        · exact h0
      · exact ih best h1 h2

/-- The substring similarity never exceeds 100. -/
theorem substrScore_le (s1 s2 : List Char) : substrScore s1 s2 ≤ 100 := by
  unfold substrScore
  split_ifs with h
  · exact substrScoreGo_le s1 s2 _ (0, 1) (by omega) (by omega)
  · exact substrScoreGo_le s2 s1 _ (0, 1) (by omega) (by omega)

/-- Names with identical cleaned forms score exactly 100. -/
theorem fuzzScore_clean_eq (s1 s2 : String) (h : cleanName s1 = cleanName s2) :
    fuzzScore s1 s2 = 100 := by
  unfold fuzzScore
  rw [h, ratioScore_self]
  exact Nat.max_eq_left (substrScore_le _ _)

/-- C7, amended.  The fuzzy match score is the maximum of the full-string
ratio and the substring ratio of the normalized names, where
normalization lower-cases and removes periods and plain space characters
(not all whitespace); any two names with identical normalizations score
100 and match at threshold 75; Raji against Ragi scores 75 and matches;
Bob against Robert scores 67 and does not match; R a g. I against Ragi
normalizes identically to it and scores 100. -/
theorem c7_fuzzy_score :
    (∀ s1 s2 : String,
        fuzzScore s1 s2
          = max (ratioScore (cleanName s1) (cleanName s2))
              (substrScore (cleanName s1) (cleanName s2)))
    ∧ (∀ s1 s2 : String, cleanName s1 = cleanName s2 →
        fuzzScore s1 s2 = 100 ∧ fuzzy_match_name s1 s2 = true)
    ∧ fuzzScore "Raji" "Ragi" = 75 ∧ fuzzy_match_name "Raji" "Ragi" = true
    ∧ fuzzScore "Bob" "Robert" = 67 ∧ fuzzy_match_name "Bob" "Robert" = false
    ∧ fuzzScore "R a g. I" "Ragi" = 100 ∧ fuzzy_match_name "R a g. I" "Ragi" = true := by
  refine ⟨fun s1 s2 => rfl, ?_, by decide, by decide, by decide, by decide, by decide,
    by decide⟩
  intro s1 s2 h
  have h100 := fuzzScore_clean_eq s1 s2 h
  refine ⟨h100, ?_⟩
  unfold fuzzy_match_name
  rw [h100]
  rfl

/-- Closed instance of C7 (amended): a name written with periods and
spaces normalizes to the same string as its compact lower-case form and
scores 100. -/
theorem c7_fuzzy_score_witness :
    fuzzScore "R. A. G. I." "ragi" = 100 ∧ fuzzy_match_name "R. A. G. I." "ragi" = true :=
  c7_fuzzy_score.2.1 "R. A. G. I." "ragi" (by decide)

/-- C7 counterexample to the claimed normalization: the source strips
only periods and plain spaces, not all whitespace, so the two names
below, identical under the whitespace-stripping normalization the claim
describes, score 80 rather than the claimed 100. -/
theorem c7_whitespace_counterexample :
    cleanSpec "a\tb" = cleanSpec "ab" ∧ cleanName "a\tb" ≠ cleanName "ab"
    ∧ fuzzScore "a\tb" "ab" = 80 :=
  ⟨by decide, by decide, by decide⟩

end PhoneAgent
